import Mathlib

set_option autoImplicit false

/-!
Shallow embedding of `src/extract_iso27000.py` (ISO 27000 vocabulary → graph
document extraction) and verification of its specification claims.

Modelling conventions:
* A spreadsheet cell is `Option String`: `none` models a missing / NaN cell
  (pandas turns blank Excel cells into `NaN` even under `dtype=str`);
  `some s` models a present text cell.
* Python `str.strip()` is modelled by `strip` (drop whitespace from both
  ends of the character list).
* Python string comparison (used by `sorted` on the two ids of a link key)
  is lexicographic on code points, modelled by `lexLe`.
* Python sets (`hub_terms`, `node_ids`, `seen_links`) are used by the script
  only for membership tests, so they are modelled by lists with `∈`.
* `float(...)` sort keys are modelled by `PyKey` (NaN, signed infinity,
  or a finite value), with the full ASCII acceptance grammar of CPython's
  float(): nan / inf / infinity case-insensitively, decimals with
  optional fraction, PEP 515 underscores and exponents; anything else
  raises, matching the script's `except: return 0` fallback.  Finite
  values are exact rationals where CPython rounds literals to the
  nearest double, and Python's `<` on NaN keys is not a total order (the
  resulting order depends on Timsort internals), so the sort-order claim
  is stated on the `keyExact` id domain, where the model provably equals
  CPython's keys and order.
-/

namespace ISO27000

/-- One input row, as produced by the loader from the Excel sheet.
`term_id`, `term`, `definition` are the `Term_ID`, `Term`, `Definition`
cells; `noteCells` are the `Note_1`..`Note_6` cells in column order
(`none` for an absent column or a NaN cell — the script treats both the
same, skipping them). -/
structure Row where
  term_id : Option String
  term : Option String
  definition : Option String
  noteCells : List (Option String)
deriving Repr, DecidableEq

/-- A node of the output graph (one vocabulary term). -/
structure Node where
  id : String
  label : String
  definition : String
  notes : List String
  uri : String
  inScheme : String
  isTopConcept : Bool
  related : List String
deriving Repr, DecidableEq

/-- A link of the output graph. -/
structure Link where
  source : String
  target : String
  type : String
deriving Repr, DecidableEq

/-- The `metadata.stats` object of the output document. -/
structure Stats where
  totalTerms : Nat
  totalRelationships : Nat
  topConcepts : Nat
deriving Repr, DecidableEq

/-- The `metadata.source` object of the output document. -/
structure SourceMeta where
  file : String
  type : String
deriving Repr, DecidableEq

/-- The `metadata.scheme` object of the output document. -/
structure SchemeMeta where
  uri : String
  label : String
  description : String
deriving Repr, DecidableEq

/-- The `metadata` object of the output document. -/
structure Metadata where
  source : SourceMeta
  scheme : SchemeMeta
  stats : Stats
deriving Repr, DecidableEq

/-- The whole output document `{nodes, links, metadata}`. -/
structure Document where
  nodes : List Node
  links : List Link
  metadata : Metadata
deriving Repr, DecidableEq

/-- The `BASE_URI` constant of the script. -/
def BASE_URI : String := "https://wiren301.github.io/iso27001-skos-taxonomy/"

/-- The hub set `hub_terms = {'3.28', '3.41', '3.64'}`: ids marked as top concepts. -/
def hub_terms : List String := ["3.28", "3.41", "3.64"]

/-- Whitespace strip on a character list, the model of Python
`str.strip()` (and of the whitespace stripping `float()` performs):
drop whitespace from both ends.  (`String.trim` itself is avoided
throughout because its position-based implementation does not reduce in
the kernel.) -/
def stripChars (cs : List Char) : List Char :=
  ((cs.dropWhile Char.isWhitespace).reverse.dropWhile Char.isWhitespace).reverse

/-- Python `s.strip()` on a string value. -/
def strip (s : String) : String :=
  String.mk (stripChars s.data)

/-- The fuel-indexed scanner behind `CROSS_REF_PATTERN.findall`: all
non-overlapping, left-to-right matches of the regex `\(3\.(\d+)\)`, each
reported as `"3." ++ digits`.  On a failed match attempt at a position
the scan advances one character, exactly as `re.findall` does; a
successful match consumes through its closing parenthesis.  Every step
consumes at least one character, so fuel `cs.length` suffices; fuel only
makes the recursion structural (hence kernel-computable). -/
def scanRefsAux : Nat → List Char → List String
  | _, [] => []
  | 0, _ => []
  | fuel + 1, '(' :: '3' :: '.' :: cs =>
    match cs.takeWhile Char.isDigit, cs.dropWhile Char.isDigit with
    | d :: ds, ')' :: cs2 => ("3." ++ String.mk (d :: ds)) :: scanRefsAux fuel cs2
    | _, _ => scanRefsAux fuel ('3' :: '.' :: cs)
  | fuel + 1, _ :: cs => scanRefsAux fuel cs

/-- All matches of `CROSS_REF_PATTERN` in a character list. -/
def scanRefs (cs : List Char) : List String :=
  scanRefsAux cs.length cs

/-- Model of `extract_cross_refs(text)`: term ids referenced in a definition text.
The pandas guard `pd.isna(text)` is always false on `str` input, and the
`not text` guard fires exactly on the empty string. -/
def extract_cross_refs (text : String) : List String :=
  if text = "" then [] else scanRefs text.data

/-- Resolution of the `Term_ID` cell: the script computes
`str(row['Term_ID']).strip()` with no `pd.notna` guard, so a missing cell
(`NaN`) becomes the literal string `"nan"` (Python's `str(float('nan'))`),
while a present cell is trimmed. -/
def resolveTermId (cell : Option String) : String :=
  match cell with
  | none => "nan"
  | some s => strip s

/-- Resolution of the `Term` / `Definition` cells: the script computes
`str(row[c]).strip() if pd.notna(row[c]) else ''`. -/
def resolveText (cell : Option String) : String :=
  match cell with
  | none => ""
  | some s => strip s

/-- The notes loop: for each `Note_k` cell in column order, keep the
trimmed value when the cell is present and the trimmed value nonempty. -/
def collectNotes (cells : List (Option String)) : List String :=
  cells.filterMap (fun c =>
    match c with
    | none => none
    | some s => if strip s = "" then none else some (strip s))

/-- The per-row body of the extraction loop: resolve the cells, skip the
row (`none`) when the resolved id or term is empty, otherwise build the
node dict with its raw (unfiltered) `related` candidate list. -/
def mkNode (r : Row) : Option Node :=
  let term_id := resolveTermId r.term_id
  let term := resolveText r.term
  let definition := resolveText r.definition
  if term_id = "" ∨ term = "" then none
  else some {
    id := term_id
    label := term
    definition := definition
    notes := collectNotes r.noteCells
    uri := BASE_URI ++ "27000/term/" ++ term_id
    inScheme := BASE_URI ++ "27000/VocabularyScheme"
    isTopConcept := decide (term_id ∈ hub_terms)
    related := extract_cross_refs definition }

/-- The node list accumulated by the row loop, before the `related`
filtering pass. -/
def rawNodes (rows : List Row) : List Node :=
  rows.filterMap mkNode

/-- The `node_ids` set accumulated by the row loop (a list here; the
script only tests membership). -/
def nodeIds (rows : List Row) : List String :=
  (rawNodes rows).map Node.id

/-- The post-pass on one node:
`node["related"] = [ref for ref in node["related"] if ref in node_ids and ref != node["id"]]`. -/
def filterRelated (ids : List String) (n : Node) : Node :=
  { n with related := n.related.filter (fun ref => ref ∈ ids ∧ ref ≠ n.id) }

/-- All nodes after the `related` filtering pass, still in source-row
order. -/
def filteredNodes (rows : List Row) : List Node :=
  (rawNodes rows).map (filterRelated (nodeIds rows))

/-- Python string comparison `a <= b`: lexicographic on code points.
(Lean's `String` order is the same relation, but its iterator-based
decision procedure does not reduce in the kernel, so it is re-stated
structurally here.) -/
def lexLe : List Char → List Char → Bool
  | [], _ => true
  | _ :: _, [] => false
  | a :: as, b :: bs => if a = b then lexLe as bs else decide (a < b)

/-- Python `a <= b` on strings. -/
def strLe (a b : String) : Bool :=
  lexLe a.data b.data

/-- Model of `tuple(sorted([a, b]))`: the unordered pair key of a link, normalised
lexicographically. -/
def linkKey (a b : String) : String × String :=
  if strLe a b then (a, b) else (b, a)

/-- All pair keys in discovery order: the link-building loop visits nodes
in list order and each node's filtered `related` ids in list order. -/
def pairKeys (ns : List Node) : List (String × String) :=
  ns.flatMap (fun n => n.related.map (linkKey n.id))

/-- The `seen_links` deduplication: keep a key when it was not seen
before, remembering every kept key. -/
def dedupKeys (seen : List (String × String)) : List (String × String) → List (String × String)
  | [] => []
  | k :: ks => if k ∈ seen then dedupKeys seen ks else k :: dedupKeys (k :: seen) ks

/-- The link dict built from one deduplicated key. -/
def mkLink (k : String × String) : Link :=
  { source := k.1, target := k.2, type := "related" }

/-- The `links` list: one link per first-seen unordered pair key, in
discovery order. -/
def buildLinks (ns : List Node) : List Link :=
  (dedupKeys [] (pairKeys ns)).map mkLink

/-- Numeric value of a digit run (most significant first). -/
def digitsVal (ds : List Char) : Nat :=
  ds.foldl (fun a c => 10 * a + (c.toNat - 48)) 0

/-- A Python float value as the sort comparison sees it: NaN, a signed
infinity, or a finite value.  Finite values are kept as the exact
rational of the parsed literal; CPython rounds the literal to the
nearest double — rounding is monotone (it never reverses a strict
order), and on the `keyExact` id domain the claims use it is the
identity, so there the modelled order is exactly Python's. -/
inductive PyKey where
  | nan : PyKey
  | negInf : PyKey
  | finite (q : Rat) : PyKey
  | posInf : PyKey
deriving Repr, DecidableEq

/-- Negation of a parsed float value (the leading `-` sign); Python's
`-nan` is still `nan`. -/
def PyKey.neg : PyKey → PyKey
  | .nan => .nan
  | .negInf => .posInf
  | .posInf => .negInf
  | .finite q => .finite (-q)

/-- A PEP 515 digit run: digits with single underscores strictly
between digits.  Returns the digits with underscores removed, and the
unconsumed rest (an underscore not followed by a digit is left in the
rest, making the overall parse fail on trailing garbage, as CPython
does). -/
def digitRunU : List Char → List Char × List Char
  | [] => ([], [])
  | c :: '_' :: d :: cs =>
    if c.isDigit then
      if d.isDigit then
        let r := digitRunU (d :: cs)
        (c :: r.1, r.2)
      else ([c], '_' :: d :: cs)
    else ([], c :: '_' :: d :: cs)
  | c :: cs =>
    if c.isDigit then
      let r := digitRunU cs
      (c :: r.1, r.2)
    else ([], c :: cs)

/-- Case-insensitive match of the whole list against "inf" or
"infinity", as CPython's float parser accepts. -/
def isInfChars : List Char → Bool
  | [a, b, c] =>
    (a = 'i' || a = 'I') && (b = 'n' || b = 'N') && (c = 'f' || c = 'F')
  | [a, b, c, d, e, f, g, h] =>
    (a = 'i' || a = 'I') && (b = 'n' || b = 'N') && (c = 'f' || c = 'F') &&
    (d = 'i' || d = 'I') && (e = 'n' || e = 'N') && (f = 'i' || f = 'I') &&
    (g = 't' || g = 'T') && (h = 'y' || h = 'Y')
  | _ => false

/-- Case-insensitive match of the whole list against "nan". -/
def isNanChars : List Char → Bool
  | [a, b, c] =>
    (a = 'n' || a = 'N') && (b = 'a' || b = 'A') && (c = 'n' || c = 'N')
  | _ => false

/-- The exponent part after `e`/`E`: optional sign and a digit run,
nothing else; scales the mantissa by the exact power of ten. -/
def parseExpPart (mant : Rat) (cs : List Char) : Option Rat :=
  let sr : Bool × List Char :=
    match cs with
    | '+' :: rest => (false, rest)
    | '-' :: rest => (true, rest)
    | _ => (false, cs)
  let er := digitRunU sr.2
  if er.1 = [] ∨ er.2 ≠ [] then none
  else if sr.1 then some (mkRat mant.num (mant.den * 10 ^ digitsVal er.1))
  else some (mkRat (mant.num * 10 ^ digitsVal er.1) mant.den)

/-- An unsigned decimal literal as CPython's float parser accepts it:
`digits [. digits] [exp]` or `. digits [exp]`, with PEP 515 underscores
inside each digit run, at least one mantissa digit, and no trailing
garbage.  The value is the exact rational. -/
def parseDecimal (cs : List Char) : Option Rat :=
  let ir := digitRunU cs
  let fr : List Char × List Char :=
    match ir.2 with
    | '.' :: rest => digitRunU rest
    | _ => ([], ir.2)
  if ir.1 = [] ∧ fr.1 = [] then none
  else
    let mant := mkRat (digitsVal ir.1 * 10 ^ fr.1.length + digitsVal fr.1) (10 ^ fr.1.length)
    match fr.2 with
    | [] => some mant
    | 'e' :: rest => parseExpPart mant rest
    | 'E' :: rest => parseExpPart mant rest
    | _ => none

/-- An unsigned Python float literal: `inf`/`infinity` or `nan`
(case-insensitive), else a decimal literal. -/
def parseUnsigned (cs : List Char) : Option PyKey :=
  if isInfChars cs then some .posInf
  else if isNanChars cs then some .nan
  else (parseDecimal cs).map PyKey.finite

/-- Model of Python `float(s)` on ASCII strings: strip surrounding
whitespace, allow an optional sign, then an unsigned float literal
(`nan`, `inf`/`infinity`, or a decimal with optional fraction, PEP 515
underscores and exponent); everything else raises (returns `none`).
Finite values are exact rationals where CPython rounds to the nearest
double, and CPython's normalisation of non-ASCII digit characters is
not modelled — both are confined by the `keyExact` domain the sort
claims use. -/
def parseFloat (s : String) : Option PyKey :=
  match stripChars s.data with
  | '-' :: cs => (parseUnsigned cs).map PyKey.neg
  | '+' :: cs => parseUnsigned cs
  | cs => parseUnsigned cs

/-- Python `x.replace("3.", "")`: delete EVERY non-overlapping,
left-to-right occurrence of the two-character pattern `3.` (not only a
leading one — the source of the sort-key quirk on ids such as
`"13.5"`). -/
def removeThreeDot : List Char → List Char
  | [] => []
  | '3' :: '.' :: cs => removeThreeDot cs
  | c :: cs => c :: removeThreeDot cs

/-- The script's `sort_key(x)`: `float(x["id"].replace("3.", ""))`, and
`0` when the conversion raises. -/
def sort_key (x : Node) : PyKey :=
  match parseFloat (String.mk (removeThreeDot x.id.data)) with
  | some k => k
  | none => .finite 0

/-- Boolean comparison of modelled keys: the float order on non-NaN
values (`-inf` below every finite value, `+inf` above, finite values by
value).  Python's `<` treats `nan` as incomparable (both directions
false), so a list with NaN keys is ordered by Timsort internals rather
than by any total order; placing `nan` at the bottom here is an
arbitrary modelling choice, and the sort-order claim is stated only for
NaN-free keys, where this order is exactly Python's. -/
def pyKeyLeb : PyKey → PyKey → Bool
  | .nan, _ => true
  | _, .nan => false
  | .negInf, _ => true
  | _, .negInf => false
  | .finite p, .finite q => decide (p ≤ q)
  | .finite _, .posInf => true
  | .posInf, .finite _ => false
  | .posInf, .posInf => true

/-- The key order as a proposition. -/
def pyKeyLe (a b : PyKey) : Prop :=
  pyKeyLeb a b = true

instance : DecidableRel pyKeyLe :=
  fun a b => inferInstanceAs (Decidable (pyKeyLeb a b = true))

/-- The ordering `nodes.sort(key=sort_key)` sorts by: ascending
`sort_key`. -/
def nodeLe (a b : Node) : Prop :=
  pyKeyLe (sort_key a) (sort_key b)

instance : DecidableRel nodeLe :=
  fun a b => inferInstanceAs (Decidable (pyKeyLeb (sort_key a) (sort_key b) = true))

/-- The id shapes on which the modelled sort key provably equals
CPython's: after deleting the `3.` occurrences the remainder either is
ASCII and fails Python float parsing (both the script and the model
then take the `except` fallback key 0), or is a plain digit run of at
most fifteen digits (both parse it to the same integer, which a double
represents exactly and order-isomorphically).  NaN and infinity names,
exponent and fractional literals, long digit runs and non-ASCII digits
are excluded: there CPython works with rounded doubles — and NaN keys
make the order depend on Timsort internals — which an exact rational
model cannot reproduce. -/
def keyExact (n : Node) : Bool :=
  let cs := removeThreeDot n.id.data
  (cs.all (fun c => decide (c.toNat < 128)) && (parseFloat (String.mk cs)).isNone)
  || (!(cs.isEmpty) && cs.all Char.isDigit && decide (cs.length ≤ 15))

/-- The whole extraction pipeline `extract_iso27000_from_excel`, from the
loaded row sequence and the input path to the returned document: build
nodes, filter `related`, build deduplicated links, stably sort the nodes
by `sort_key`, and assemble metadata.  Python's `list.sort` is the stable
ascending sort by the key, which is exactly `List.insertionSort` with the
key ordering (a stable sort of a list under a total preorder is unique). -/
def extract_iso27000_from_excel (rows : List Row) (excel_path : String) : Document :=
  let nodes1 := filteredNodes rows
  let links := buildLinks nodes1
  let nodes2 := nodes1.insertionSort nodeLe
  { nodes := nodes2
    links := links
    metadata := {
      source := { file := excel_path, type := "Excel" }
      scheme := {
        uri := BASE_URI ++ "27000/VocabularyScheme"
        label := "ISO/IEC 27000:2018 Information Security Vocabulary"
        description := "77 terms and definitions for information security management systems" }
      stats := {
        totalTerms := nodes2.length
        totalRelationships := links.length
        topConcepts := nodes2.countP (fun n => n.isTopConcept) } } }

/-- A JSON value, for serializing the document as `json.dump` does. -/
inductive Json where
  | str (s : String)
  | nat (n : Nat)
  | bool (b : Bool)
  | arr (items : List Json)
  | obj (fields : List (String × Json))
deriving Repr

/-- Hexadecimal digit character (lowercase), as Python's `\uXXXX` escapes
use. -/
def hexDigit (n : Nat) : Char :=
  if n < 10 then Char.ofNat (48 + n) else Char.ofNat (97 + n - 10)

/-- Four-digit lowercase hexadecimal rendering of `n < 65536`. -/
def hex4 (n : Nat) : String :=
  String.mk [hexDigit (n / 4096 % 16), hexDigit (n / 256 % 16), hexDigit (n / 16 % 16), hexDigit (n % 16)]

/-- Escape one character as Python `json.dump` (with its default
`ensure_ascii=True`) renders it inside a string literal. -/
def escapeChar (c : Char) : String :=
  if c = '"' then "\\\""
  else if c = '\\' then "\\\\"
  else if c = '\n' then "\\n"
  else if c = '\t' then "\\t"
  else if c = '\r' then "\\r"
  else if c.toNat = 8 then "\\b"
  else if c.toNat = 12 then "\\f"
  else if 32 ≤ c.toNat ∧ c.toNat < 127 then String.singleton c
  else if c.toNat < 65536 then "\\u" ++ hex4 c.toNat
  else
    "\\u" ++ hex4 (55296 + (c.toNat - 65536) / 1024) ++
    "\\u" ++ hex4 (56320 + (c.toNat - 65536) % 1024)

/-- A JSON string literal with escapes. -/
def jstr (s : String) : String :=
  "\"" ++ String.join (s.data.map escapeChar) ++ "\""

/-- Indentation produced by `json.dump(..., indent=2)` at a nesting
level. -/
def indentStr (level : Nat) : String :=
  String.mk (List.replicate (2 * level) ' ')

mutual

/-- Render a JSON value at a nesting level, following the layout of
`json.dump(data, f, indent=2)` (item separator `",\n"`, key separator
`": "`, empty containers rendered inline). -/
def renderJson (level : Nat) : Json → String
  | .str s => jstr s
  | .nat n => toString n
  | .bool b => if b then "true" else "false"
  | .arr [] => "[]"
  | .arr (x :: xs) =>
    "[\n" ++ String.intercalate ",\n" (renderItems (level + 1) (x :: xs)) ++
    "\n" ++ indentStr level ++ "]"
  | .obj [] => "\x7b\x7d"
  | .obj (f :: fs) =>
    "\x7b\n" ++ String.intercalate ",\n" (renderFields (level + 1) (f :: fs)) ++
    "\n" ++ indentStr level ++ "\x7d"

/-- Render the elements of a JSON array, each on its own indented line. -/
def renderItems (level : Nat) : List Json → List String
  | [] => []
  | x :: xs => (indentStr level ++ renderJson level x) :: renderItems level xs

/-- Render the key-value pairs of a JSON object, each on its own indented
line. -/
def renderFields (level : Nat) : List (String × Json) → List String
  | [] => []
  | (k, v) :: fs => (indentStr level ++ jstr k ++ ": " ++ renderJson level v) :: renderFields level fs

end

/-- The JSON image of a node dict, keys in insertion order. -/
def nodeJson (n : Node) : Json :=
  .obj [
    ("id", .str n.id),
    ("label", .str n.label),
    ("definition", .str n.definition),
    ("notes", .arr (n.notes.map Json.str)),
    ("uri", .str n.uri),
    ("inScheme", .str n.inScheme),
    ("isTopConcept", .bool n.isTopConcept),
    ("related", .arr (n.related.map Json.str))]

/-- The JSON image of a link dict, keys in insertion order. -/
def linkJson (l : Link) : Json :=
  .obj [("source", .str l.source), ("target", .str l.target), ("type", .str l.type)]

/-- The JSON image of the whole document, keys in insertion order
(Python dicts preserve insertion order, so `json.dump` output is fully
determined by the document). -/
def documentJson (d : Document) : Json :=
  .obj [
    ("nodes", .arr (d.nodes.map nodeJson)),
    ("links", .arr (d.links.map linkJson)),
    ("metadata", .obj [
      ("source", .obj [
        ("file", .str d.metadata.source.file),
        ("type", .str d.metadata.source.type)]),
      ("scheme", .obj [
        ("uri", .str d.metadata.scheme.uri),
        ("label", .str d.metadata.scheme.label),
        ("description", .str d.metadata.scheme.description)]),
      ("stats", .obj [
        ("totalTerms", .nat d.metadata.stats.totalTerms),
        ("totalRelationships", .nat d.metadata.stats.totalRelationships),
        ("topConcepts", .nat d.metadata.stats.topConcepts)])])]

/-- The byte content `json.dump(data, f, indent=2)` writes for a
document. -/
def serialize (d : Document) : String :=
  renderJson 0 (documentJson d)

/-- Attempt, following the spec's words, to match "open paren, '3.', one
or more digits, close paren" at the current position; on success return
the digit run and the remainder after the closing parenthesis. -/
def matchCrossRef : List Char → Option (List Char × List Char)
  | '(' :: '3' :: '.' :: cs =>
    match cs.takeWhile Char.isDigit, cs.dropWhile Char.isDigit with
    | d :: ds, ')' :: rest => some (d :: ds, rest)
    | _, _ => none
  | _ => none

/-- Modelled from the spec: "all non-overlapping matches of
`\(3\.(\d+)\)`, left-to-right, preserving order", each match producing
candidate id `"3." + digits`.  The scan tries a match at every position,
moving one character on failure and past the match on success.  Fuel
makes the recursion structural; `cs.length` fuel suffices. -/
def findallSpecAux : Nat → List Char → List String
  | _, [] => []
  | 0, _ => []
  | fuel + 1, c :: cs =>
    match matchCrossRef (c :: cs) with
    | some (ds, rest) => ("3." ++ String.mk ds) :: findallSpecAux fuel rest
    | none => findallSpecAux fuel cs

/-- The spec-side candidate list of a definition text. -/
def findallSpec (cs : List Char) : List String :=
  findallSpecAux cs.length cs

/-- The sort key as claim C4 words it: parse the substring after the
literal PREFIX `"3."` of the id, with fallback `0` for ids without that
prefix or with an unparsable suffix.  (To be compared against the
source's `sort_key`, which deletes every `"3."` occurrence.) -/
def sort_key_spec (x : Node) : PyKey :=
  match x.id.data with
  | '3' :: '.' :: rest =>
    match parseFloat (String.mk rest) with
    | some k => k
    | none => .finite 0
  | _ => .finite 0

/-- Ordering by the claim-side key `sort_key_spec`. -/
def nodeLeSpec (a b : Node) : Prop :=
  pyKeyLe (sort_key_spec a) (sort_key_spec b)

instance : DecidableRel nodeLeSpec :=
  fun a b => inferInstanceAs (Decidable (pyKeyLeb (sort_key_spec a) (sort_key_spec b) = true))

instance : IsTotal Node nodeLe :=
  ⟨fun a b => by
    unfold nodeLe
    generalize sort_key a = x
    generalize sort_key b = y
    cases x <;> cases y <;> simp [pyKeyLe, pyKeyLeb]
    exact le_total _ _⟩

instance : IsTrans Node nodeLe :=
  ⟨fun a b c => by
    unfold nodeLe
    generalize sort_key a = x
    generalize sort_key b = y
    generalize sort_key c = z
    cases x <;> cases y <;> cases z <;> simp [pyKeyLe, pyKeyLeb]
    exact fun h1 h2 => le_trans h1 h2⟩

/-- A fixed concrete row for witnesses and counterexamples. -/
def mkRow (i t d : String) : Row :=
  ⟨some i, some t, some d, []⟩

/-- Concrete example input: two rows where only the first references the
second. -/
def rowsW : List Row :=
  [mkRow "3.10" "a" "see (3.28)", mkRow "3.28" "b" ""]

/-- The first output node of `rowsW`, written out. -/
def nodeW : Node :=
  { id := "3.10"
    label := "a"
    definition := "see (3.28)"
    notes := []
    uri := "https://wiren301.github.io/iso27001-skos-taxonomy/27000/term/3.10"
    inScheme := "https://wiren301.github.io/iso27001-skos-taxonomy/27000/VocabularyScheme"
    isTopConcept := false
    related := ["3.28"] }

/-- The second output node of `rowsW`, written out. -/
def nodeW28 : Node :=
  { id := "3.28"
    label := "b"
    definition := ""
    notes := []
    uri := "https://wiren301.github.io/iso27001-skos-taxonomy/27000/term/3.28"
    inScheme := "https://wiren301.github.io/iso27001-skos-taxonomy/27000/VocabularyScheme"
    isTopConcept := true
    related := [] }

/-! Helper lemmas shared by several claims. -/

/-- A node keeps its id through the `related` filtering pass. -/
theorem filterRelated_id (ids : List String) (n : Node) :
    (filterRelated ids n).id = n.id := rfl

/-- The filtered node list carries the same ids, in the same order, as
the raw node list. -/
theorem filteredNodes_map_id (rows : List Row) :
    (filteredNodes rows).map Node.id = (rawNodes rows).map Node.id := by
  unfold filteredNodes
  rw [List.map_map]
  exact List.map_congr_left (fun a _ => rfl)

/-- The sorted output node list is a permutation of the filtered node
list. -/
theorem extract_nodes_perm (rows : List Row) (path : String) :
    ((extract_iso27000_from_excel rows path).nodes).Perm (filteredNodes rows) :=
  List.perm_insertionSort nodeLe _

/-- Membership in the output ids agrees with membership in `nodeIds`. -/
theorem mem_extract_ids (rows : List Row) (path : String) (r : String) :
    r ∈ ((extract_iso27000_from_excel rows path).nodes).map Node.id ↔ r ∈ nodeIds rows := by
  have h := ((extract_nodes_perm rows path).map Node.id).mem_iff (a := r)
  rw [filteredNodes_map_id] at h
  exact h

/-- Every key kept by the deduplication pass occurs in the input key
list. -/
theorem dedupKeys_subset (ks : List (String × String)) :
    ∀ seen k, k ∈ dedupKeys seen ks → k ∈ ks := by
  induction ks with
  | nil => intro seen k h; simp [dedupKeys] at h
  | cons k0 ks ih =>
    intro seen k h
    unfold dedupKeys at h
    by_cases hs : k0 ∈ seen
    · simp only [if_pos hs] at h
      exact List.mem_cons_of_mem _ (ih _ _ h)
    · simp only [if_neg hs] at h
      rcases List.mem_cons.mp h with h | h
      · exact h ▸ List.mem_cons_self _ _
      · exact List.mem_cons_of_mem _ (ih _ _ h)

/-- Characterisation of the pair-key traversal. -/
theorem mem_pairKeys (ns : List Node) (k : String × String) :
    k ∈ pairKeys ns ↔ ∃ n ∈ ns, ∃ r ∈ n.related, k = linkKey n.id r := by
  unfold pairKeys
  simp only [List.mem_flatMap, List.mem_map]
  constructor
  · rintro ⟨n, hn, r, hr, rfl⟩
    exact ⟨n, hn, r, hr, rfl⟩
  · rintro ⟨n, hn, r, hr, rfl⟩
    exact ⟨n, hn, r, hr, rfl⟩

/-- A link key is one of the two orders of its argument pair. -/
theorem linkKey_cases (a b : String) :
    linkKey a b = (a, b) ∨ linkKey a b = (b, a) := by
  unfold linkKey
  by_cases h : strLe a b = true
  · exact Or.inl (if_pos h)
  · exact Or.inr (if_neg h)

/-- Membership of a `related` entry after filtering: it is an id of the
node set and differs from the owning node's id. -/
theorem mem_related_filtered (rows : List Row) (n : Node)
    (hn : n ∈ filteredNodes rows) (r : String) (hr : r ∈ n.related) :
    r ∈ nodeIds rows ∧ r ≠ n.id := by
  unfold filteredNodes at hn
  rcases List.mem_map.mp hn with ⟨m, hm, rfl⟩
  unfold filterRelated at hr ⊢
  simp only at hr
  have := List.mem_filter.mp hr
  simpa using this.2

/-- C7: in every output document, `metadata.stats.totalTerms` equals the
number of nodes, `metadata.stats.totalRelationships` the number of links,
and `metadata.stats.topConcepts` the number of nodes with
`isTopConcept = true`. -/
theorem C7_stat_consistency (rows : List Row) (path : String) :
    (extract_iso27000_from_excel rows path).metadata.stats.totalTerms
        = (extract_iso27000_from_excel rows path).nodes.length
    ∧ (extract_iso27000_from_excel rows path).metadata.stats.totalRelationships
        = (extract_iso27000_from_excel rows path).links.length
    ∧ (extract_iso27000_from_excel rows path).metadata.stats.topConcepts
        = ((extract_iso27000_from_excel rows path).nodes.filter (fun n => n.isTopConcept)).length := by
  refine ⟨rfl, rfl, ?_⟩
  simp [extract_iso27000_from_excel, List.countP_eq_length_filter]

/-- C10: `metadata.scheme.description` is the hard-coded string
"77 terms and definitions for information security management systems"
for every input, so it can disagree with `metadata.stats.totalTerms`
(for the empty input, `totalTerms` is 0, not 77). -/
theorem C10_description_constant (rows : List Row) (path : String) :
    (extract_iso27000_from_excel rows path).metadata.scheme.description
        = "77 terms and definitions for information security management systems"
    ∧ (extract_iso27000_from_excel ([] : List Row) path).metadata.stats.totalTerms = 0 :=
  ⟨rfl, rfl⟩

/-- C8: the extraction is deterministic — two runs on equal row
sequences and equal input paths produce the same document and hence
byte-identical `json.dump` serializations.  (The script's only
iteration-order-sensitive structures are sets used purely for membership
tests, so the embedding is a pure function of the input.) -/
theorem C8_determinism (rows rows2 : List Row) (path path2 : String)
    (hrows : rows = rows2) (hpath : path = path2) :
    serialize (extract_iso27000_from_excel rows path)
      = serialize (extract_iso27000_from_excel rows2 path2) := by
  rw [hrows, hpath]

/-- Witness for C8 at a concrete input. -/
theorem C8_determinism_witness :
    serialize (extract_iso27000_from_excel rowsW "schemas/ISO27000_2018_EXTRACTED.xlsx")
      = serialize (extract_iso27000_from_excel rowsW "schemas/ISO27000_2018_EXTRACTED.xlsx") :=
  C8_determinism rowsW rowsW _ _ rfl rfl

/-- C9: the links list is computed from the filtered nodes in original
source-row order, before the node sort; the sort only permutes the nodes
list and leaves the links list (order and contents) untouched. -/
theorem C9_links_fixed_before_sort (rows : List Row) (path : String) :
    (extract_iso27000_from_excel rows path).links = buildLinks (filteredNodes rows)
    ∧ ((extract_iso27000_from_excel rows path).nodes).Perm (filteredNodes rows) :=
  ⟨rfl, extract_nodes_perm rows path⟩

/-- C3 (code behaviour at the failing input): a row whose `Term_ID` cell
is blank (NaN) is NOT skipped — `str(nan)` makes the id the literal
string "nan" and a node is emitted; by contrast a whitespace-only
`Term_ID` and a blank `Term` are skipped as the claim says. -/
theorem C3_blank_term_id_not_skipped :
    ((extract_iso27000_from_excel
        [{ term_id := none, term := some "information security", definition := none, noteCells := [] }]
        "p").nodes.map Node.id) = ["nan"]
    ∧ (extract_iso27000_from_excel [mkRow "   " "x" "", mkRow "3.1" "" ""] "p").nodes = [] := by
  exact ⟨by decide, by decide⟩

/-- C6 counterexample: with two non-skipped rows carrying the same
trimmed `Term_ID`, the output contains two nodes with the same id — the
claimed pairwise distinctness fails. -/
theorem C6_counterexample :
    ¬ (((extract_iso27000_from_excel [mkRow "3.1" "a" "", mkRow "3.1" "b" ""] "p").nodes.map
          Node.id).Nodup) := by
  decide

/-- C6 (amended): when the non-skipped rows carry pairwise distinct
trimmed `Term_ID`s, the output node ids are pairwise distinct. -/
theorem C6_node_id_uniqueness (rows : List Row) (path : String)
    (h : ((rawNodes rows).map Node.id).Nodup) :
    (((extract_iso27000_from_excel rows path).nodes).map Node.id).Nodup := by
  have hperm : (((extract_iso27000_from_excel rows path).nodes).map Node.id).Perm
      ((rawNodes rows).map Node.id) := by
    have := (extract_nodes_perm rows path).map Node.id
    rwa [filteredNodes_map_id] at this
  exact hperm.nodup_iff.mpr h

/-- Witness for C6 at a concrete input with distinct ids. -/
theorem C6_node_id_uniqueness_witness :
    ((rawNodes rowsW).map Node.id).Nodup
    ∧ (((extract_iso27000_from_excel rowsW "p").nodes).map Node.id).Nodup :=
  ⟨by decide, C6_node_id_uniqueness rowsW "p" (by decide)⟩

/-- C2: after the post-pass filter, every `related` entry of every output
node is the id of some output node and differs from the owning node's
id; consequently no link is a self-loop and every link endpoint is an
existing node id. -/
theorem C2_filter_postcondition (rows : List Row) (path : String) :
    (∀ n ∈ (extract_iso27000_from_excel rows path).nodes,
       ∀ r ∈ n.related,
         r ≠ n.id ∧ r ∈ ((extract_iso27000_from_excel rows path).nodes).map Node.id)
    ∧ (∀ l ∈ (extract_iso27000_from_excel rows path).links,
         l.source ≠ l.target
         ∧ l.source ∈ ((extract_iso27000_from_excel rows path).nodes).map Node.id
         ∧ l.target ∈ ((extract_iso27000_from_excel rows path).nodes).map Node.id) := by
  constructor
  · intro n hn r hr
    have hn2 : n ∈ filteredNodes rows := (extract_nodes_perm rows path).mem_iff.mp hn
    have h := mem_related_filtered rows n hn2 r hr
    exact ⟨h.2, (mem_extract_ids rows path r).mpr h.1⟩
  · intro l hl
    have hl2 : l ∈ buildLinks (filteredNodes rows) := hl
    unfold buildLinks at hl2
    rcases List.mem_map.mp hl2 with ⟨k, hk, rfl⟩
    have hk2 : k ∈ pairKeys (filteredNodes rows) := dedupKeys_subset _ _ _ hk
    rcases (mem_pairKeys _ _).mp hk2 with ⟨n, hn, r, hr, rfl⟩
    have hmem := mem_related_filtered rows n hn r hr
    have hid : n.id ∈ nodeIds rows := by
      have : n.id ∈ (filteredNodes rows).map Node.id := List.mem_map_of_mem Node.id hn
      rwa [filteredNodes_map_id] at this
    have hsrc : ∀ x ∈ [n.id, r], x ∈ ((extract_iso27000_from_excel rows path).nodes).map Node.id := by
      intro x hx
      have hx2 : x = n.id ∨ x = r := by simpa using hx
      rcases hx2 with h | h
      · rw [h]; exact (mem_extract_ids rows path n.id).mpr hid
      · rw [h]; exact (mem_extract_ids rows path r).mpr hmem.1
    have hne : n.id ≠ r := fun h => hmem.2 h.symm
    rcases linkKey_cases n.id r with hkey | hkey <;> rw [hkey]
    · exact ⟨by simpa [mkLink] using hne, hsrc n.id (by simp), hsrc r (by simp)⟩
    · exact ⟨by simpa [mkLink] using hmem.2, hsrc r (by simp), hsrc n.id (by simp)⟩

/-- Witness for C2 at a concrete input: the filtered `related` entry
"3.28" of the node with id "3.10" is a distinct, existing node id. -/
theorem C2_filter_postcondition_witness :
    "3.28" ≠ nodeW.id
    ∧ "3.28" ∈ ((extract_iso27000_from_excel rowsW "p").nodes).map Node.id :=
  (C2_filter_postcondition rowsW "p").1 nodeW (by decide) "3.28" (by decide)

/-- The source scanner and the spec-side scanner agree, fuel for fuel:
both consume a successful match whole and advance one character after a
failed match attempt. -/
theorem scanRefsAux_eq_findallSpecAux : ∀ (fuel : Nat) (cs : List Char),
    scanRefsAux fuel cs = findallSpecAux fuel cs := by
  intro fuel cs
  induction fuel, cs using scanRefsAux.induct with
  | case1 t => cases t <;> rfl
  | case2 x hx =>
    cases x with
    | nil => rfl
    | cons c cs => rfl
  | case3 fuel cs d ds cs2 h2 h1 ih =>
    simp only [scanRefsAux, findallSpecAux, matchCrossRef, h1, h2, ih]
  | case4 fuel cs hfail ih =>
    have hm : matchCrossRef ('(' :: '3' :: '.' :: cs) = none := by
      unfold matchCrossRef
      split
      · rename_i x1 cs1 heq
        injection heq with e1 heq
        injection heq with e2 heq
        injection heq with e3 heq
        subst heq
        split
        · rename_i d ds rest h1 h2
          exact (hfail d ds rest h1 h2).elim
        · rfl
      · rfl
    have hl : scanRefsAux (fuel + 1) ('(' :: '3' :: '.' :: cs)
        = scanRefsAux fuel ('3' :: '.' :: cs) := by
      simp only [scanRefsAux]
    have hr : findallSpecAux (fuel + 1) ('(' :: '3' :: '.' :: cs)
        = findallSpecAux fuel ('3' :: '.' :: cs) := by
      simp only [findallSpecAux, hm]
    rw [hl, hr, ih]
  | case5 fuel c cs hne ih =>
    have hm : matchCrossRef (c :: cs) = none := by
      rw [matchCrossRef.eq_def]
      split
      · rename_i x1 cs1 heq
        injection heq with e1 heq
        exact (hne cs1 e1 heq).elim
      · rfl
    have hl : scanRefsAux (fuel + 1) (c :: cs) = scanRefsAux fuel cs :=
      scanRefsAux.eq_4 fuel c cs hne
    have hr : findallSpecAux (fuel + 1) (c :: cs) = findallSpecAux fuel cs := by
      simp only [findallSpecAux, hm]
    rw [hl, hr, ih]

/-- C5: the candidate id list of a definition text is exactly the list
of non-overlapping, left-to-right matches of the cross-reference
pattern, each reported as "3." plus the matched digits, in order of
appearance and with repeated mentions kept; empty text yields the empty
list. -/
theorem C5_cross_reference_extraction :
    (∀ text : String, extract_cross_refs text = findallSpec text.data)
    ∧ extract_cross_refs "" = []
    ∧ extract_cross_refs "a (3.12) b (3.12) and (3.7)" = ["3.12", "3.12", "3.7"] := by
  refine ⟨?_, by decide, by decide⟩
  intro text
  unfold extract_cross_refs findallSpec scanRefs
  by_cases h : text = ""
  · subst h
    decide
  · rw [if_neg h]
    exact scanRefsAux_eq_findallSpecAux _ _

theorem lexLe_total : ∀ as bs : List Char, lexLe as bs = true ∨ lexLe bs as = true := by
  intro as
  induction as with
  | nil => intro bs; exact Or.inl rfl
  | cons a as ih =>
    intro bs
    cases bs with
    | nil => exact Or.inr rfl
    | cons b bs =>
      by_cases hab : a = b
      · subst hab
        simp only [lexLe, if_pos rfl]
        exact ih bs
      · simp only [lexLe, if_neg hab, if_neg (Ne.symm hab)]
        rcases lt_trichotomy a b with h | h | h
        · exact Or.inl (decide_eq_true h)
        · exact absurd h hab
        · exact Or.inr (decide_eq_true h)

theorem lexLe_antisymm : ∀ as bs : List Char,
    lexLe as bs = true → lexLe bs as = true → as = bs := by
  intro as
  induction as with
  | nil =>
    intro bs h1 h2
    cases bs with
    | nil => rfl
    | cons b bs => exact absurd h2 (by simp [lexLe])
  | cons a as ih =>
    intro bs h1 h2
    cases bs with
    | nil => exact absurd h1 (by simp [lexLe])
    | cons b bs =>
      by_cases hab : a = b
      · subst hab
        simp only [lexLe, if_pos rfl] at h1 h2
        rw [ih bs h1 h2]
      · simp only [lexLe, if_neg hab, if_neg (Ne.symm hab)] at h1 h2
        exact absurd (lt_trans (of_decide_eq_true h1) (of_decide_eq_true h2)) (lt_irrefl a)

theorem strLe_total (a b : String) : strLe a b = true ∨ strLe b a = true :=
  lexLe_total a.data b.data

theorem strLe_antisymm (a b : String) (h1 : strLe a b = true) (h2 : strLe b a = true) :
    a = b := by
  cases a with
  | mk as =>
    cases b with
    | mk bs => exact congrArg String.mk (lexLe_antisymm as bs h1 h2)

theorem linkKey_comm (a b : String) : linkKey a b = linkKey b a := by
  unfold linkKey
  by_cases h1 : strLe a b = true <;> by_cases h2 : strLe b a = true
  · rw [if_pos h1, if_pos h2, strLe_antisymm a b h1 h2]
  · rw [if_pos h1, if_neg h2]
  · rw [if_neg h1, if_pos h2]
  · rcases strLe_total a b with h | h
    · exact absurd h h1
    · exact absurd h h2

theorem linkKey_sorted (a b : String) :
    strLe (linkKey a b).1 (linkKey a b).2 = true := by
  unfold linkKey
  by_cases h : strLe a b = true
  · rw [if_pos h]; exact h
  · rw [if_neg h]
    rcases strLe_total a b with h1 | h1
    · exact absurd h1 h
    · exact h1

theorem mem_dedupKeys : ∀ (ks seen : List (String × String)) (k : String × String),
    k ∈ dedupKeys seen ks ↔ (k ∈ ks ∧ k ∉ seen) := by
  intro ks
  induction ks with
  | nil => intro seen k; simp [dedupKeys]
  | cons k0 ks ih =>
    intro seen k
    unfold dedupKeys
    by_cases h0 : k0 ∈ seen
    · rw [if_pos h0, ih]
      constructor
      · rintro ⟨hk, hs⟩
        exact ⟨List.mem_cons_of_mem _ hk, hs⟩
      · rintro ⟨hk, hs⟩
        rcases List.mem_cons.mp hk with heq | hk2
        · exact absurd (heq ▸ h0) hs
        · exact ⟨hk2, hs⟩
    · rw [if_neg h0]
      constructor
      · intro hk
        rcases List.mem_cons.mp hk with heq | hk2
        · rw [heq]
          exact ⟨List.mem_cons_self _ _, h0⟩
        · have h3 := (ih (k0 :: seen) k).mp hk2
          exact ⟨List.mem_cons_of_mem _ h3.1, fun hs => h3.2 (List.mem_cons_of_mem _ hs)⟩
      · rintro ⟨hk, hs⟩
        rcases List.mem_cons.mp hk with heq | hk2
        · rw [heq]; exact List.mem_cons_self _ _
        · by_cases hkk : k = k0
          · rw [hkk]; exact List.mem_cons_self _ _
          · refine List.mem_cons_of_mem _ ((ih (k0 :: seen) k).mpr ⟨hk2, fun hs' => ?_⟩)
            rcases List.mem_cons.mp hs' with h | h
            · exact hkk h
            · exact hs h

theorem nodup_dedupKeys : ∀ (ks seen : List (String × String)), (dedupKeys seen ks).Nodup := by
  intro ks
  induction ks with
  | nil => intro seen; simp [dedupKeys]
  | cons k0 ks ih =>
    intro seen
    unfold dedupKeys
    by_cases h0 : k0 ∈ seen
    · rw [if_pos h0]; exact ih seen
    · rw [if_neg h0]
      refine List.nodup_cons.mpr ⟨fun hmem => ?_, ih (k0 :: seen)⟩
      exact ((mem_dedupKeys ks (k0 :: seen) k0).mp hmem).2 (List.mem_cons_self _ _)

theorem filter_nodup_singleton {α : Type} [DecidableEq α] :
    ∀ (l : List α), l.Nodup → ∀ a ∈ l, l.filter (fun x => decide (x = a)) = [a] := by
  intro l
  induction l with
  | nil => intro _ a ha; cases ha
  | cons b bs ih =>
    intro hnd a ha
    rcases List.nodup_cons.mp hnd with ⟨hb, hbs⟩
    rcases List.mem_cons.mp ha with heq | ha2
    · rw [heq]
      rw [List.filter_cons, if_pos (by simp)]
      have hnil : bs.filter (fun x => decide (x = b)) = [] := by
        rw [List.filter_eq_nil_iff]
        intro x hx
        simp only [decide_eq_true_eq]
        exact fun hxb => hb (hxb ▸ hx)
      rw [hnil]
    · have hba : b ≠ a := fun h => hb (h ▸ ha2)
      rw [List.filter_cons, if_neg (by simp [hba])]
      exact ih hbs a ha2


/-- C1: for distinct ids A and B, if some output node with id A lists B
in its filtered `related` list (or symmetrically), then exactly one link
with the unordered pair of A and B appears in the links list — the one whose
source is the lexicographically smaller id, target the larger, and type
"related". -/
theorem C1_link_symmetry_uniqueness (rows : List Row) (path : String) (A B : String)
    (hAB : A ≠ B)
    (h : ∃ n ∈ (extract_iso27000_from_excel rows path).nodes,
          (n.id = A ∧ B ∈ n.related) ∨ (n.id = B ∧ A ∈ n.related)) :
    (extract_iso27000_from_excel rows path).links.filter
        (fun l => decide ((l.source = A ∧ l.target = B) ∨ (l.source = B ∧ l.target = A)))
      = [mkLink (linkKey A B)]
    ∧ mkLink (linkKey A B)
      = { source := if strLe A B then A else B
          target := if strLe A B then B else A
          type := "related" } := by
  obtain ⟨n, hn, hcase⟩ := h
  have hn2 : n ∈ filteredNodes rows := (extract_nodes_perm rows path).mem_iff.mp hn
  have hkey : linkKey A B ∈ pairKeys (filteredNodes rows) := by
    rcases hcase with ⟨hid, hB⟩ | ⟨hid, hA⟩
    · have hmem : linkKey n.id B ∈ pairKeys (filteredNodes rows) :=
        (mem_pairKeys _ _).mpr ⟨n, hn2, B, hB, rfl⟩
      rwa [hid] at hmem
    · have hmem : linkKey n.id A ∈ pairKeys (filteredNodes rows) :=
        (mem_pairKeys _ _).mpr ⟨n, hn2, A, hA, rfl⟩
      rw [hid, linkKey_comm] at hmem
      exact hmem
  have hdedup : linkKey A B ∈ dedupKeys [] (pairKeys (filteredNodes rows)) :=
    (mem_dedupKeys _ _ _).mpr ⟨hkey, by simp⟩
  have hnodup := nodup_dedupKeys (pairKeys (filteredNodes rows)) []
  constructor
  · show (buildLinks (filteredNodes rows)).filter _ = _
    unfold buildLinks
    rw [List.filter_map]
    have hsorted : ∀ k ∈ dedupKeys [] (pairKeys (filteredNodes rows)),
        strLe k.1 k.2 = true := by
      intro k hk
      have hk2 : k ∈ pairKeys (filteredNodes rows) := ((mem_dedupKeys _ _ _).mp hk).1
      rcases (mem_pairKeys _ _).mp hk2 with ⟨m, hm, r, hr, rfl⟩
      exact linkKey_sorted m.id r
    have hcong : ∀ k ∈ dedupKeys [] (pairKeys (filteredNodes rows)),
        ((fun l => decide ((l.source = A ∧ l.target = B) ∨ (l.source = B ∧ l.target = A)))
            ∘ mkLink) k
          = decide (k = linkKey A B) := by
      intro k hk
      have hs := hsorted k hk
      simp only [Function.comp_apply, mkLink, decide_eq_decide]
      constructor
      · rintro (⟨h1, h2⟩ | ⟨h1, h2⟩)
        · have hk1 : k = (A, B) := Prod.ext h1 h2
          rw [hk1] at hs ⊢
          unfold linkKey
          rw [if_pos hs]
        · have hk1 : k = (B, A) := Prod.ext h1 h2
          rw [hk1] at hs ⊢
          unfold linkKey
          have hab2 : ¬ (strLe A B = true) := fun hab => hAB (strLe_antisymm A B hab hs)
          rw [if_neg hab2]
      · intro hk1
        rw [hk1]
        unfold linkKey
        by_cases hab : strLe A B = true
        · rw [if_pos hab]; exact Or.inl ⟨rfl, rfl⟩
        · rw [if_neg hab]; exact Or.inr ⟨rfl, rfl⟩
    rw [List.filter_congr hcong]
    rw [filter_nodup_singleton _ hnodup _ hdedup]
    rfl
  · by_cases hab : strLe A B = true
    · simp [linkKey, mkLink, hab]
    · simp [linkKey, mkLink, hab]

/-- Witness for C1 at a concrete input: rows "3.10" and "3.28" where
only "3.10" mentions "(3.28)". -/
theorem C1_link_symmetry_uniqueness_witness :
    (extract_iso27000_from_excel rowsW "p").links.filter
        (fun l => decide ((l.source = "3.10" ∧ l.target = "3.28")
          ∨ (l.source = "3.28" ∧ l.target = "3.10")))
      = [mkLink (linkKey "3.10" "3.28")]
    ∧ mkLink (linkKey "3.10" "3.28")
      = { source := if strLe "3.10" "3.28" then "3.10" else "3.28"
          target := if strLe "3.10" "3.28" then "3.28" else "3.10"
          type := "related" } :=
  C1_link_symmetry_uniqueness rowsW "p" "3.10" "3.28" (by decide)
    ⟨nodeW, by decide, Or.inl ⟨rfl, by decide⟩⟩



/-- Dropping while a predicate that holds nowhere in the list changes
nothing. -/
theorem dropWhile_all_neg (p : Char → Bool) :
    ∀ cs : List Char, (∀ c ∈ cs, p c = false) → cs.dropWhile p = cs := by
  intro cs h
  cases cs with
  | nil => rfl
  | cons c cs =>
    rw [List.dropWhile_cons, if_neg]
    simp [h c (List.mem_cons_self _ _)]

/-- Taking while a predicate that holds everywhere keeps the whole
list. -/
theorem takeWhile_all_pos (p : Char → Bool) :
    ∀ cs : List Char, (∀ c ∈ cs, p c = true) → cs.takeWhile p = cs := by
  intro cs
  induction cs with
  | nil => intro _; rfl
  | cons c cs ih =>
    intro h
    rw [List.takeWhile_cons, if_pos (h c (List.mem_cons_self _ _))]
    rw [ih (fun x hx => h x (List.mem_cons_of_mem _ hx))]

/-- Dropping while a predicate that holds everywhere drops the whole
list. -/
theorem dropWhile_all_pos (p : Char → Bool) :
    ∀ cs : List Char, (∀ c ∈ cs, p c = true) → cs.dropWhile p = [] := by
  intro cs
  induction cs with
  | nil => intro _; rfl
  | cons c cs ih =>
    intro h
    rw [List.dropWhile_cons, if_pos (h c (List.mem_cons_self _ _))]
    exact ih (fun x hx => h x (List.mem_cons_of_mem _ hx))

/-- A digit character is not whitespace. -/
theorem isDigit_not_whitespace (c : Char) (h : c.isDigit = true) :
    c.isWhitespace = false := by
  by_cases h1 : c = ' '
  · rw [h1] at h; exact absurd h (by decide)
  by_cases h2 : c = '\t'
  · rw [h2] at h; exact absurd h (by decide)
  by_cases h3 : c = '\r'
  · rw [h3] at h; exact absurd h (by decide)
  by_cases h4 : c = '\n'
  · rw [h4] at h; exact absurd h (by decide)
  unfold Char.isWhitespace
  simp [h1, h2, h3, h4]

/-- Stripping whitespace from an all-digit character list changes
nothing. -/
theorem stripChars_digits (cs : List Char) (hd : ∀ c ∈ cs, c.isDigit = true) :
    stripChars cs = cs := by
  have hw : ∀ c ∈ cs, c.isWhitespace = false :=
    fun c hc => isDigit_not_whitespace c (hd c hc)
  unfold stripChars
  rw [dropWhile_all_neg _ cs hw]
  rw [dropWhile_all_neg _ cs.reverse (fun c hc => hw c (List.mem_reverse.mp hc))]
  exact List.reverse_reverse cs

/-- Deleting occurrences of "3." is the identity on dot-free lists. -/
theorem removeThreeDot_no_dot :
    ∀ cs : List Char, (∀ c ∈ cs, c ≠ '.') → removeThreeDot cs = cs := by
  intro cs
  induction cs using removeThreeDot.induct with
  | case1 => intro _; rfl
  | case2 cs ih =>
    intro h
    exact absurd rfl (h '.' (List.mem_cons_of_mem _ (List.mem_cons_self _ _)))
  | case3 c cs hne ih =>
    intro h
    rw [removeThreeDot.eq_3 c cs hne]
    rw [ih (fun x hx => h x (List.mem_cons_of_mem _ hx))]

/-- Splitting a PEP 515 digit run off an all-digit list consumes the
whole list. -/
theorem digitRunU_digits : ∀ cs : List Char, (∀ c ∈ cs, c.isDigit = true) → digitRunU cs = (cs, []) := by
  intro cs
  induction cs using digitRunU.induct with
  | case1 => intro _; rfl
  | case2 c d cs h1 h2 ih =>
    intro hd
    exact absurd (hd '_' (by simp)) (by decide)
  | case3 c d cs h1 h2 =>
    intro hd
    exact absurd (hd '_' (by simp)) (by decide)
  | case4 c d cs h1 =>
    intro hd
    exact absurd (hd '_' (by simp)) (by decide)
  | case5 c cs hne h1 ih =>
    intro hd
    have hrec := ih (fun x hx => hd x (List.mem_cons_of_mem _ hx))
    rw [digitRunU.eq_3 c cs hne, if_pos h1, hrec]
  | case6 c cs hne h1 =>
    intro hd
    exact absurd (hd c (by simp)) h1

/-- A digit character differs from any non-digit character. -/
theorem digit_ne (c x : Char) (hc : c.isDigit = true) (hx : x.isDigit = false) : c ≠ x := by
  intro h
  rw [h, hx] at hc
  cases hc

/-- An all-digit list is not a spelling of "inf" or "infinity". -/
theorem isInfChars_digits (cs : List Char) (hd : ∀ c ∈ cs, c.isDigit = true) :
    isInfChars cs = false := by
  rw [isInfChars.eq_def]
  split
  · rename_i a b c
    have ha := hd a (by simp)
    simp [digit_ne a 'i' ha (by decide), digit_ne a 'I' ha (by decide)]
  · rename_i a b c d e f g h
    have ha := hd a (by simp)
    simp [digit_ne a 'i' ha (by decide), digit_ne a 'I' ha (by decide)]
  · rfl

/-- An all-digit list is not a spelling of "nan". -/
theorem isNanChars_digits (cs : List Char) (hd : ∀ c ∈ cs, c.isDigit = true) :
    isNanChars cs = false := by
  rw [isNanChars.eq_def]
  split
  · rename_i a b c
    have ha := hd a (by simp)
    simp [digit_ne a 'n' ha (by decide), digit_ne a 'N' ha (by decide)]
  · rfl

/-- A nonempty all-digit literal parses to its integer value. -/
theorem parseDecimal_digits (ds : List Char) (hne : ds ≠ []) (hd : ∀ c ∈ ds, c.isDigit = true) :
    parseDecimal ds = some (mkRat (digitsVal ds) 1) := by
  unfold parseDecimal
  rw [digitRunU_digits ds hd]
  simp [hne]
  rfl

/-- A nonempty all-digit string parses, like Python float, to its
finite integer value (on which the double rounding CPython applies is
the identity). -/
theorem parseFloat_digits (ds : List Char) (hne : ds ≠ []) (hd : ∀ c ∈ ds, c.isDigit = true) :
    parseFloat (String.mk ds) = some (.finite (mkRat (digitsVal ds) 1)) := by
  unfold parseFloat
  show (match stripChars ds with
    | '-' :: cs => (parseUnsigned cs).map PyKey.neg
    | '+' :: cs => parseUnsigned cs
    | cs => parseUnsigned cs) = some (.finite (mkRat (digitsVal ds) 1))
  rw [stripChars_digits ds hd]
  cases ds with
  | nil => exact absurd rfl hne
  | cons d ds2 =>
    have hd0 : d.isDigit = true := hd d (List.mem_cons_self _ _)
    have hminus : d ≠ '-' := fun h => by rw [h] at hd0; exact absurd hd0 (by decide)
    have hplus : d ≠ '+' := fun h => by rw [h] at hd0; exact absurd hd0 (by decide)
    split
    · rename_i cs1 heq
      injection heq with e1 _
      exact absurd e1 hminus
    · rename_i cs1 heq
      injection heq with e1 _
      exact absurd e1 hplus
    · unfold parseUnsigned
      rw [isInfChars_digits _ hd, isNanChars_digits _ hd]
      simp only [Bool.false_eq_true, if_false]
      rw [parseDecimal_digits _ hne hd]
      rfl

/-- On an id of the shape "3." followed by one or more digits, the
source sort key agrees with the prefix-parsing key the claim describes,
and both equal the numeric value of the digits. -/
theorem sort_key_eq_spec_on_prefix (n : Node) (ds : List Char)
    (hid : n.id.data = '3' :: '.' :: ds) (hne : ds ≠ [])
    (hd : ∀ c ∈ ds, c.isDigit = true) :
    sort_key n = sort_key_spec n ∧ sort_key n = .finite (mkRat (digitsVal ds) 1) := by
  have hnodot : ∀ c ∈ ds, c ≠ '.' := by
    intro c hc h
    subst h
    exact absurd (hd _ hc) (by decide)
  have hrm : removeThreeDot n.id.data = ds := by
    rw [hid]
    show removeThreeDot ('3' :: '.' :: ds) = ds
    rw [removeThreeDot]
    exact removeThreeDot_no_dot ds hnodot
  have hval : sort_key n = .finite (mkRat (digitsVal ds) 1) := by
    unfold sort_key
    rw [hrm, parseFloat_digits ds hne hd]
  have hspec : sort_key_spec n = .finite (mkRat (digitsVal ds) 1) := by
    unfold sort_key_spec
    rw [hid]
    show (match parseFloat (String.mk ds) with | some k => k | none => .finite 0)
      = PyKey.finite (mkRat (digitsVal ds) 1)
    rw [parseFloat_digits ds hne hd]
  exact ⟨by rw [hval, hspec], hval⟩

/-- Inside the `keyExact` domain a node's key is never NaN: the key
string either fails to parse (fallback finite 0) or is a digit run
(finite integer).  Python's `<` on NaN is not an order, so this is what
licenses reading the sort as an ascending stable sort at all. -/
theorem keyExact_not_nan (n : Node) (h : keyExact n = true) : sort_key n ≠ .nan := by
  unfold keyExact at h
  simp only [Bool.or_eq_true, Bool.and_eq_true] at h
  unfold sort_key
  rcases h with ⟨_, hnone⟩ | ⟨⟨hne, hall⟩, _⟩
  · rw [Option.isNone_iff_eq_none] at hnone
    rw [hnone]
    simp
  · have hd : ∀ c ∈ removeThreeDot n.id.data, c.isDigit = true :=
      fun c hc => List.all_eq_true.mp hall c hc
    have hne2 : removeThreeDot n.id.data ≠ [] := by
      intro he
      rw [he] at hne
      simp at hne
    rw [parseFloat_digits _ hne2 hd]
    simp

end ISO27000
